import Mathlib

/-!
# Verification of the download-ticks chunked-range fetch pipeline

Shallow embedding of the Rust sources of `download-ticks`:

* `src/utils.rs` — `split_intervals`, `read_data_from_file`,
  `get_last_close_time_from_file`, `write_data_to_file`, `fetch_url`;
* `src/data.rs` — the `Kline` record, its `ts_microseconds` serialisation
  and the custom `timestamp::deserialize` visitor;
* `src/market/binance.rs`, `src/market/gate.rs` — the per-exchange URL
  builders and kline records;
* `src/main.rs` — the sequential fetch loop of `main`.

Time instants (`chrono::DateTime<Utc>`) are modelled as integers counting
nanoseconds since the Unix epoch, which is chrono's internal resolution;
`chrono::Duration` values are likewise nanosecond counts.
-/

namespace DownloadTicks

/-- `Duration::minutes(n)` in nanoseconds. -/
def durMinutes (n : Int) : Int := n * 60 * 1000000000

/-- `Duration::hours(n)` in nanoseconds. -/
def durHours (n : Int) : Int := n * 3600 * 1000000000

/-- `Duration::days(n)` in nanoseconds. -/
def durDays (n : Int) : Int := n * 86400 * 1000000000

/-- `DateTime::timestamp_millis()`: floor division of the nanosecond
instant to milliseconds (chrono floors toward negative infinity). -/
def timestampMillis (t : Int) : Int := t.fdiv 1000000

/-- `DateTime::timestamp()`: floor division of the nanosecond instant to
whole seconds. -/
def timestampSecs (t : Int) : Int := t.fdiv 1000000000

/-- `DateTime::timestamp_micros()`: floor division of the nanosecond
instant to microseconds. -/
def timestampMicros (t : Int) : Int := t.fdiv 1000

/-- The interval enum matched by `split_intervals` in `src/utils.rs`
(variants `M1`, `H1`, `D1`). -/
inductive Interval
  | M1
  | H1
  | D1
deriving DecidableEq

/-- The `(max_duration, plus_duration)` pair computed by the `match` at
the head of `split_intervals`. -/
def intervalDurations : Interval → Int × Int
  | Interval.M1 => (durMinutes 1000, durMinutes 1)
  | Interval.H1 => (durHours 1000, durHours 1)
  | Interval.D1 => (durDays 1000, durDays 1)

/-- The step duration of an interval (`plus_duration`). -/
def Interval.step (i : Interval) : Int := (intervalDurations i).2

/-- The maximal sub-range span of an interval (`max_duration`,
1000 steps). -/
def Interval.maxSpan (i : Interval) : Int := (intervalDurations i).1

/-- The `Display` rendering of an interval (`src/cli.rs`). -/
def Interval.display : Interval → String
  | Interval.M1 => "1m"
  | Interval.H1 => "1h"
  | Interval.D1 => "1d"

theorem step_pos (i : Interval) : 0 < i.step := by
  cases i <;> decide

theorem maxSpan_pos (i : Interval) : 0 < i.maxSpan := by
  cases i <;> decide

theorem maxSpan_eq_thousand_step (i : Interval) : i.maxSpan = 1000 * i.step := by
  cases i <;> decide

/-- The `while` loop of `split_intervals`: while `current_start < end`,
push `(current_start, min (current_start + max_duration) end)` and
advance `current_start` past the emitted end by one step.  The two
positivity facts hold for every `Interval` and make the loop terminate,
exactly as in the source where the durations are the concrete positive
`minutes/hours/days` constants. -/
def splitGo (maxD plusD stop : Int) (hmax : 0 < maxD) (hplus : 0 < plusD)
    (cur : Int) : List (Int × Int) :=
  if cur < stop then
    (cur, min (cur + maxD) stop) ::
      splitGo maxD plusD stop hmax hplus (min (cur + maxD) stop + plusD)
  else []
termination_by (stop - cur).toNat
decreasing_by
  have h1 : cur + 1 ≤ min (cur + maxD) stop := by
    apply le_min <;> omega
  have h2 : stop - cur > 0 := by omega
  omega

/-- `split_intervals` from `src/utils.rs`. -/
def split_intervals (start stop : Int) (interval : Interval) :
    List (Int × Int) :=
  splitGo interval.maxSpan interval.step stop (maxSpan_pos interval)
    (step_pos interval) start

theorem splitGo_eq_nil (maxD plusD stop : Int) (hmax : 0 < maxD)
    (hplus : 0 < plusD) (cur : Int) (h : ¬ cur < stop) :
    splitGo maxD plusD stop hmax hplus cur = [] := by
  rw [splitGo]
  simp [h]

theorem splitGo_eq_cons (maxD plusD stop : Int) (hmax : 0 < maxD)
    (hplus : 0 < plusD) (cur : Int) (h : cur < stop) :
    splitGo maxD plusD stop hmax hplus cur =
      (cur, min (cur + maxD) stop) ::
        splitGo maxD plusD stop hmax hplus (min (cur + maxD) stop + plusD) := by
  rw [splitGo]
  simp [h]

/-- Every emitted piece lies between the cursor and `stop`, is well
formed, and spans at most `maxD`. -/
theorem splitGo_mem (maxD plusD stop : Int) (hmax : 0 < maxD)
    (hplus : 0 < plusD) (cur : Int) :
    ∀ p ∈ splitGo maxD plusD stop hmax hplus cur,
      cur ≤ p.1 ∧ p.1 ≤ p.2 ∧ p.2 ≤ stop ∧ p.2 - p.1 ≤ maxD := by
  induction cur using splitGo.induct maxD plusD stop hmax hplus with
  | case1 x hx ih =>
    rw [splitGo_eq_cons maxD plusD stop hmax hplus x hx]
    intro p hp
    rcases List.mem_cons.mp hp with hp | hp
    · subst hp
      refine ⟨le_refl _, ?_, ?_, ?_⟩
      · exact le_min (by omega) (by omega)
      · exact min_le_right _ _
      · have := min_le_left (x + maxD) stop
        omega
    · have h := ih p hp
      have hmin : x ≤ min (x + maxD) stop := le_min (by omega) (by omega)
      omega
  | case2 x hx =>
    rw [splitGo_eq_nil maxD plusD stop hmax hplus x hx]
    intro p hp
    simp at hp

/-- When the loop runs at least once, the first emitted piece starts at
the cursor. -/
theorem splitGo_head (maxD plusD stop : Int) (hmax : 0 < maxD)
    (hplus : 0 < plusD) (cur : Int) (h : cur < stop) :
    (splitGo maxD plusD stop hmax hplus cur).head? =
      some (cur, min (cur + maxD) stop) := by
  rw [splitGo_eq_cons maxD plusD stop hmax hplus cur h]
  rfl

/-- Adjacent pieces are separated by exactly one step: the next piece
starts one `plusD` past the previous piece's end. -/
theorem splitGo_chain (maxD plusD stop : Int) (hmax : 0 < maxD)
    (hplus : 0 < plusD) (cur : Int) :
    List.Chain' (fun p q : Int × Int => q.1 = p.2 + plusD)
      (splitGo maxD plusD stop hmax hplus cur) := by
  induction cur using splitGo.induct maxD plusD stop hmax hplus with
  | case1 x hx ih =>
    rw [splitGo_eq_cons maxD plusD stop hmax hplus x hx]
    rw [List.chain'_cons']
    refine ⟨?_, ih⟩
    intro q hq
    by_cases hlt : min (x + maxD) stop + plusD < stop
    · rw [splitGo_head maxD plusD stop hmax hplus _ hlt] at hq
      simp at hq
      subst hq
      rfl
    · rw [splitGo_eq_nil maxD plusD stop hmax hplus _ hlt] at hq
      simp at hq
  | case2 x hx =>
    rw [splitGo_eq_nil maxD plusD stop hmax hplus x hx]
    exact List.chain'_nil

/-- The pieces are pairwise disjoint and ascending: any earlier piece
ends strictly before any later piece starts. -/
theorem splitGo_pairwise (maxD plusD stop : Int) (hmax : 0 < maxD)
    (hplus : 0 < plusD) (cur : Int) :
    List.Pairwise (fun p q : Int × Int => p.2 < q.1)
      (splitGo maxD plusD stop hmax hplus cur) := by
  induction cur using splitGo.induct maxD plusD stop hmax hplus with
  | case1 x hx ih =>
    rw [splitGo_eq_cons maxD plusD stop hmax hplus x hx]
    refine List.pairwise_cons.mpr ⟨?_, ih⟩
    intro q hq
    have h := splitGo_mem maxD plusD stop hmax hplus _ q hq
    omega
  | case2 x hx =>
    rw [splitGo_eq_nil maxD plusD stop hmax hplus x hx]
    exact List.Pairwise.nil

/-- When the loop runs at least once, the last emitted piece ends within
one step of `stop` (and never after `stop`). -/
theorem splitGo_last (maxD plusD stop : Int) (hmax : 0 < maxD)
    (hplus : 0 < plusD) (cur : Int) (h : cur < stop) :
    ∃ q, (splitGo maxD plusD stop hmax hplus cur).getLast? = some q ∧
      stop - plusD ≤ q.2 ∧ q.2 ≤ stop := by
  induction cur using splitGo.induct maxD plusD stop hmax hplus with
  | case1 x hx ih =>
    rw [splitGo_eq_cons maxD plusD stop hmax hplus x hx]
    by_cases hlt : min (x + maxD) stop + plusD < stop
    · obtain ⟨q, hq, hq1, hq2⟩ := ih hlt
      refine ⟨q, ?_, hq1, hq2⟩
      cases hl : splitGo maxD plusD stop hmax hplus (min (x + maxD) stop + plusD) with
      | nil => rw [hl] at hq; simp at hq
      | cons b t =>
        rw [hl] at hq
        rw [List.getLast?_cons_cons]
        exact hq
    · rw [splitGo_eq_nil maxD plusD stop hmax hplus _ hlt]
      refine ⟨(x, min (x + maxD) stop), rfl, ?_, min_le_right _ _⟩
      have := min_le_left (x + maxD) stop
      omega
  | case2 x hx => exact absurd h hx

/-- Concrete evaluation of the splitter: a range of exactly 1001 minute
steps at granularity `M1` yields a single piece that stops one step
short of the requested end. -/
theorem split_intervals_eval_1001 :
    split_intervals 0 60060000000000 Interval.M1 = [(0, 60000000000000)] := by
  rw [split_intervals, splitGo]
  norm_num [Interval.maxSpan, Interval.step, intervalDurations, durMinutes]
  rw [splitGo]
  norm_num

/-- Concrete evaluation of the splitter: a range of 1500 minute steps at
granularity `M1` yields two pieces with a one-step gap between them. -/
theorem split_intervals_eval_1500 :
    split_intervals 0 90000000000000 Interval.M1 =
      [(0, 60000000000000), (60060000000000, 90000000000000)] := by
  rw [split_intervals, splitGo]
  norm_num [Interval.maxSpan, Interval.step, intervalDurations, durMinutes]
  rw [splitGo]
  norm_num
  rw [splitGo]
  norm_num

/-- C1 (counterexample): the claim "the union of the pieces equals
`[start, end]` exactly" is false.  With `start = 0`,
`end = 1001` minutes (in nanoseconds) and interval `M1`, the splitter
emits the single piece `[0, 1000 min]`, so the instant `end` — and the
whole candle step before it — belongs to `[start, end]` but to no piece
of the output. -/
theorem split_intervals_union_counterexample :
    (0 : Int) ≤ 60060000000000 ∧
    split_intervals 0 60060000000000 Interval.M1 = [(0, 60000000000000)] ∧
    ∀ p ∈ split_intervals 0 60060000000000 Interval.M1,
      ¬ (p.1 ≤ 60060000000000 ∧ (60060000000000 : Int) ≤ p.2) := by
  refine ⟨by norm_num, split_intervals_eval_1001, ?_⟩
  rw [split_intervals_eval_1001]
  intro p hp
  simp at hp
  subst hp
  norm_num

/-- C1 (amended): for `start ≤ end`, the pieces returned by
`split_intervals` are ordered ascending by start, pairwise disjoint,
each contained in `[start, end]` with duration at most `max_span`
(1000 steps); consecutive pieces are separated by exactly one step, the
first piece starts at `start`, and the last piece ends within one step
of `end` — so coverage of `[start, end]` holds only up to one-step
boundary gaps, and the final instant `end` itself may be left
uncovered. -/
theorem split_intervals_partition (start stop : Int) (i : Interval)
    (h : start ≤ stop) :
    (∀ p ∈ split_intervals start stop i,
        start ≤ p.1 ∧ p.1 ≤ p.2 ∧ p.2 ≤ stop ∧ p.2 - p.1 ≤ 1000 * i.step) ∧
    List.Pairwise (fun p q : Int × Int => p.2 < q.1)
      (split_intervals start stop i) ∧
    List.Chain' (fun p q : Int × Int => q.1 = p.2 + i.step)
      (split_intervals start stop i) ∧
    (start < stop →
      (split_intervals start stop i).head?.map Prod.fst = some start ∧
      ∃ q, (split_intervals start stop i).getLast? = some q ∧
        stop - i.step ≤ q.2 ∧ q.2 ≤ stop) := by
  refine ⟨?_, ?_, ?_, ?_⟩
  · intro p hp
    have := splitGo_mem i.maxSpan i.step stop (maxSpan_pos i) (step_pos i)
      start p hp
    have hms := maxSpan_eq_thousand_step i
    omega
  · exact splitGo_pairwise i.maxSpan i.step stop (maxSpan_pos i)
      (step_pos i) start
  · exact splitGo_chain i.maxSpan i.step stop (maxSpan_pos i)
      (step_pos i) start
  · intro hlt
    constructor
    · rw [split_intervals, splitGo_head i.maxSpan i.step stop (maxSpan_pos i)
        (step_pos i) start hlt]
      rfl
    · exact splitGo_last i.maxSpan i.step stop (maxSpan_pos i)
        (step_pos i) start hlt

/-- Witness for `split_intervals_partition` at the concrete input
`start = 0`, `end = 1500` minutes, interval `M1`. -/
theorem split_intervals_partition_witness :
    (0 : Int) ≤ 90000000000000 ∧
    ((∀ p ∈ split_intervals 0 90000000000000 Interval.M1,
        (0 : Int) ≤ p.1 ∧ p.1 ≤ p.2 ∧ p.2 ≤ 90000000000000 ∧
          p.2 - p.1 ≤ 1000 * Interval.M1.step) ∧
      List.Pairwise (fun p q : Int × Int => p.2 < q.1)
        (split_intervals 0 90000000000000 Interval.M1) ∧
      List.Chain' (fun p q : Int × Int => q.1 = p.2 + Interval.M1.step)
        (split_intervals 0 90000000000000 Interval.M1) ∧
      ((0 : Int) < 90000000000000 →
        (split_intervals 0 90000000000000 Interval.M1).head?.map Prod.fst =
          some 0 ∧
        ∃ q, (split_intervals 0 90000000000000 Interval.M1).getLast? =
              some q ∧
          (90000000000000 : Int) - Interval.M1.step ≤ q.2 ∧
          q.2 ≤ 90000000000000)) :=
  ⟨by norm_num, split_intervals_partition 0 90000000000000 Interval.M1
    (by norm_num)⟩

/-- C5: for every pair of adjacent sub-ranges `a`, `b` produced by
`split_intervals`, the start of `b` equals the end of `a` plus exactly
one interval step. -/
theorem split_intervals_adjacent_step (start stop : Int) (i : Interval)
    (n : Nat) (p q : Int × Int)
    (hp : (split_intervals start stop i)[n]? = some p)
    (hq : (split_intervals start stop i)[n + 1]? = some q) :
    q.1 = p.2 + i.step := by
  have hchain : List.Chain' (fun p q : Int × Int => q.1 = p.2 + i.step)
      (split_intervals start stop i) :=
    splitGo_chain i.maxSpan i.step stop (maxSpan_pos i) (step_pos i) start
  rw [List.chain'_iff_get] at hchain
  have hlen : n + 1 < (split_intervals start stop i).length :=
    (List.getElem?_eq_some.mp hq).1
  have h1 : (split_intervals start stop i).get ⟨n, by omega⟩ = p := by
    rw [List.get_eq_getElem]
    exact (List.getElem?_eq_some.mp hp).2
  have h2 : (split_intervals start stop i).get ⟨n + 1, hlen⟩ = q := by
    rw [List.get_eq_getElem]
    exact (List.getElem?_eq_some.mp hq).2
  have hc := hchain n (by omega)
  rw [h1, h2] at hc
  exact hc

/-- Witness for `split_intervals_adjacent_step`: in the two-piece split
of `[0, 1500 min]` at `M1`, the second piece starts one minute after the
first piece ends. -/
theorem split_intervals_adjacent_step_witness :
    (60060000000000 : Int) = 60000000000000 + Interval.M1.step :=
  split_intervals_adjacent_step 0 90000000000000 Interval.M1 0
    (0, 60000000000000) (60060000000000, 90000000000000)
    (by rw [split_intervals_eval_1500]; rfl)
    (by rw [split_intervals_eval_1500]; rfl)

/-- C10: for `start > end` the splitter is total and returns the empty
sequence — the loop guard fails at once, no sub-range is emitted and no
panic can occur — which is the same result as for `start = end`. -/
theorem split_intervals_reversed_range (start stop : Int) (i : Interval)
    (h : stop < start) :
    split_intervals start stop i = [] ∧
      split_intervals start stop i = split_intervals start start i := by
  have h1 : split_intervals start stop i = [] := by
    rw [split_intervals]
    exact splitGo_eq_nil _ _ _ _ _ _ (by omega)
  have h2 : split_intervals start start i = [] := by
    rw [split_intervals]
    exact splitGo_eq_nil _ _ _ _ _ _ (by omega)
  exact ⟨h1, h1.trans h2.symm⟩

/-- Witness for `split_intervals_reversed_range` at
`start = 60000000000000`, `end = 0`, interval `H1`. -/
theorem split_intervals_reversed_range_witness :
    (0 : Int) < 60000000000000 ∧
    (split_intervals 60000000000000 0 Interval.H1 = [] ∧
      split_intervals 60000000000000 0 Interval.H1 =
        split_intervals 60000000000000 60000000000000 Interval.H1) :=
  ⟨by norm_num,
    split_intervals_reversed_range 60000000000000 0 Interval.H1
      (by norm_num)⟩

/-! ## The kline record and its file codec (`src/data.rs`, `src/utils.rs`)

`write_data_to_file` serialises a `Vec<Kline>` with `serde_json`; the
`Kline` struct of `src/data.rs` renames its fields only for
deserialisation, so it is written as a JSON object keyed by the original
field names, with both time fields written through
`chrono::serde::ts_microseconds` (whole microseconds since the epoch).
`read_data_from_file` parses the file as `Vec<Data>`, whose two time
fields go through the custom `timestamp::deserialize` visitor, and
converts each `Data` into a `Kline` field by field.

The JSON file is modelled by `KlineJson`, one entry per record: the two
time fields as the integers appearing in the JSON text and the remaining
scalar fields carried verbatim (serde maps them through the identity
`f64`/`u64` codecs). -/

/-- The `Kline` struct of `src/data.rs` (equal in layout to `Data`,
which `read_data_from_file` converts into it field by field).  Times in
nanoseconds since the epoch, `f64` fields as `Float`, `u64` as `Nat`. -/
structure Kline where
  open_time : Int
  open_price : Float
  high_price : Float
  low_price : Float
  close_price : Float
  volume : Float
  close_time : Int
  quote_asset_volume : Float
  number_of_trades : Nat
  taker_buy_base_volume : Float
  taker_buy_quote_volume : Float
  ignore : Float

/-- One serialised record of the JSON file: the image of a `Kline` under
`serde_json::to_writer`, with the two time fields as the raw integers in
the JSON text. -/
structure KlineJson where
  open_time : Int
  open_price : Float
  high_price : Float
  low_price : Float
  close_price : Float
  volume : Float
  close_time : Int
  quote_asset_volume : Float
  number_of_trades : Nat
  taker_buy_base_volume : Float
  taker_buy_quote_volume : Float
  ignore : Float

/-- `chrono::serde::ts_microseconds` serialisation: a time field is
written as its whole-microsecond timestamp. -/
def serializeKline (k : Kline) : KlineJson :=
  { open_time := timestampMicros k.open_time
    open_price := k.open_price
    high_price := k.high_price
    low_price := k.low_price
    close_price := k.close_price
    volume := k.volume
    close_time := timestampMicros k.close_time
    quote_asset_volume := k.quote_asset_volume
    number_of_trades := k.number_of_trades
    taker_buy_base_volume := k.taker_buy_base_volume
    taker_buy_quote_volume := k.taker_buy_quote_volume
    ignore := k.ignore }

/-- `write_data_to_file` from `src/utils.rs` (the file-system side —
create/write — is external I/O; the function's observable content is the
serialised record list). -/
def write_data_to_file (klines : List Kline) : List KlineJson :=
  klines.map serializeKline

/-- Lower bound of `chrono::DateTime::from_timestamp_millis`:
`MIN_UTC.timestamp() * 1000`. -/
def chronoMinMillis : Int := -8334601228800000

/-- Upper bound of `chrono::DateTime::from_timestamp_millis`:
`MAX_UTC.timestamp() * 1000 + 999`. -/
def chronoMaxMillis : Int := 8210266876799999

/-- The `timestamp::deserialize` visitor of `src/data.rs` applied to a
JSON integer `v`.

* a negative integer reaches `visit_i64`, which `TimestampVisitor` does
  not implement, so serde rejects it ("invalid type");
* an integer above `u64::MAX` cannot be represented and is rejected by
  `serde_json`;
* otherwise `visit_u64` runs: it first tries
  `DateTime::from_timestamp_millis(value as i64)` — which succeeds for
  every value in chrono's representable millisecond range, interpreting
  the value as **milliseconds** — and only outside that range falls back
  to `DateTime::from_timestamp_nanos(value as i64)` (nanoseconds).

The result is the decoded instant in nanoseconds. -/
def timestampDeserialize (v : Int) : Except String Int :=
  if v < 0 then Except.error "invalid type: expected u64"
  else if 18446744073709551615 < v then Except.error "number out of range"
  else
    let w : Int := if v < 9223372036854775808 then v else v - 18446744073709551616
    if chronoMinMillis ≤ w ∧ w ≤ chronoMaxMillis then Except.ok (w * 1000000)
    else Except.ok w

/-- Deserialising one record: `Vec<Data>` parsing (time fields through
`timestamp::deserialize`, the rest through the identity codecs) followed
by the field-by-field `Into<Kline>` conversion. -/
def deserializeData (j : KlineJson) : Except String Kline := do
  let ot ← timestampDeserialize j.open_time
  let ct ← timestampDeserialize j.close_time
  pure
    { open_time := ot
      open_price := j.open_price
      high_price := j.high_price
      low_price := j.low_price
      close_price := j.close_price
      volume := j.volume
      close_time := ct
      quote_asset_volume := j.quote_asset_volume
      number_of_trades := j.number_of_trades
      taker_buy_base_volume := j.taker_buy_base_volume
      taker_buy_quote_volume := j.taker_buy_quote_volume
      ignore := j.ignore }

/-- `read_data_from_file` from `src/utils.rs`, on the decoded JSON
contents of the file. -/
def read_data_from_file (file : List KlineJson) :
    Except String (List Kline) :=
  file.mapM deserializeData

/-- `get_last_close_time_from_file` from `src/utils.rs`. -/
def get_last_close_time_from_file (file : List KlineJson) :
    Except String Int :=
  match read_data_from_file file with
  | Except.error e => Except.error e
  | Except.ok klines =>
    match klines.getLast? with
    | some k => Except.ok k.close_time
    | none => Except.error "file is empty"

/-- C2: writing a record and reading it back does **not** round-trip.
`write_data_to_file` stores the times in microseconds while the reader
interprets the stored integer as milliseconds, so a kline whose
`open_time` is `1970-01-01T00:00:01Z` (10^9 ns) is written as
`1000000` µs and comes back as `1000000` ms = `1970-01-01T00:16:40Z`
(10^12 ns): every time field is multiplied by 1000. -/
theorem write_read_roundtrip_fails :
    read_data_from_file (write_data_to_file
      [{ open_time := 1000000000, open_price := 1.5, high_price := 2.5,
         low_price := 0.5, close_price := 2.0, volume := 10.0,
         close_time := 2000000000, quote_asset_volume := 5.0,
         number_of_trades := 3, taker_buy_base_volume := 1.0,
         taker_buy_quote_volume := 2.0, ignore := 0.0 }]) =
      Except.ok
      [{ open_time := 1000000000000, open_price := 1.5, high_price := 2.5,
         low_price := 0.5, close_price := 2.0, volume := 10.0,
         close_time := 2000000000000, quote_asset_volume := 5.0,
         number_of_trades := 3, taker_buy_base_volume := 1.0,
         taker_buy_quote_volume := 2.0, ignore := 0.0 }] ∧
    (1000000000000 : Int) ≠ 1000000000 := by
  constructor
  · rfl
  · norm_num

/-- Modelled from the spec: the resume driver that turns the persisted
file into the effective start of a resumed fetch is not among the
sources under `src/` (only its helper `get_last_close_time_from_file`
is).  Spec §4.5: "extract the last record's `close_time` and set
`effective_start = close_time + granularity.step`; otherwise
`effective_start = requested_start`". -/
def plan_resume (file : List KlineJson) (requested_start : Int)
    (i : Interval) : Int :=
  match get_last_close_time_from_file file with
  | Except.ok t => t + i.step
  | Except.error _ => requested_start

/-- C3: when the persisted file decodes to a non-empty record list whose
last record closes at `T`, resuming with any `requested_start < T`
yields the effective start `T + step`, not `requested_start`. -/
theorem resume_starts_after_last_close (file : List KlineJson)
    (req : Int) (i : Interval) (klines : List Kline) (k : Kline)
    (hread : read_data_from_file file = Except.ok klines)
    (hlast : klines.getLast? = some k)
    (hreq : req < k.close_time) :
    plan_resume file req i = k.close_time + i.step ∧
      plan_resume file req i ≠ req := by
  have hget : get_last_close_time_from_file file =
      Except.ok k.close_time := by
    unfold get_last_close_time_from_file
    rw [hread]
    show (match klines.getLast? with
          | some k => Except.ok k.close_time
          | none => Except.error "file is empty") = Except.ok k.close_time
    rw [hlast]
  have hplan : plan_resume file req i = k.close_time + i.step := by
    unfold plan_resume
    rw [hget]
  have := step_pos i
  exact ⟨hplan, by omega⟩

/-- A one-record file used as concrete input for the resume witness:
its single record closes at 10^9 µs in the JSON, decoded (as
milliseconds) to 10^15 ns. -/
def sampleFile : List KlineJson :=
  [{ open_time := 0, open_price := 1.0, high_price := 1.0,
     low_price := 1.0, close_price := 1.0, volume := 1.0,
     close_time := 1000000000, quote_asset_volume := 1.0,
     number_of_trades := 1, taker_buy_base_volume := 1.0,
     taker_buy_quote_volume := 1.0, ignore := 0.0 }]

/-- The decoded contents of `sampleFile`. -/
def sampleKline : Kline :=
  { open_time := 0, open_price := 1.0, high_price := 1.0,
    low_price := 1.0, close_price := 1.0, volume := 1.0,
    close_time := 1000000000000000, quote_asset_volume := 1.0,
    number_of_trades := 1, taker_buy_base_volume := 1.0,
    taker_buy_quote_volume := 1.0, ignore := 0.0 }

/-- Witness for `resume_starts_after_last_close` on `sampleFile` with
`requested_start = 0` and interval `M1`. -/
theorem resume_starts_after_last_close_witness :
    plan_resume sampleFile 0 Interval.M1 =
        sampleKline.close_time + Interval.M1.step ∧
      plan_resume sampleFile 0 Interval.M1 ≠ 0 :=
  resume_starts_after_last_close sampleFile 0 Interval.M1 [sampleKline]
    sampleKline (by rfl) (by rfl) (by norm_num [sampleKline])

/-! ## Exchange adapters (`src/cli.rs`, `src/market/binance.rs`,
`src/market/gate.rs`) -/

/-- The `Market` enum of `src/cli.rs`. -/
inductive Market
  | Binance
deriving DecidableEq

/-- The `Command` struct of `src/cli.rs`, with the fields the adapters
consume.  Dates are nanosecond instants, the output file is kept as its
path string. -/
structure Command where
  market : Market
  symbol : String
  interval : Interval
  from_date : Option Int
  to_date : Option Int
  output_file : Option String

/-- `Binance::urls` from `src/market/binance.rs`: base URL, symbol,
interval and `limit=1000`; with both dates given, one URL per sub-range
of `split_intervals`, carrying `startTime`/`endTime` as
`timestamp_millis()` values. -/
def binanceUrls (cmd : Command) : List String :=
  let url := "https://api.binance.com/api/v3/klines?symbol=" ++ cmd.symbol
    ++ "&interval=" ++ cmd.interval.display ++ "&limit=1000"
  match cmd.from_date, cmd.to_date with
  | some start, some stop =>
    (split_intervals start stop cmd.interval).map fun p =>
      url ++ "&startTime=" ++ toString (timestampMillis p.1)
        ++ "&endTime=" ++ toString (timestampMillis p.2)
  | some start, none =>
    [url ++ "&startTime=" ++ toString (timestampMillis start)]
  | none, some stop =>
    [url ++ "&endTime=" ++ toString (timestampMillis stop)]
  | none, none => [url]

/-- `Gate::urls` from `src/market/gate.rs`: base URL, currency pair and
interval; with both dates given, one URL per sub-range of
`split_intervals`, carrying `from`/`to` as `timestamp()` (whole-second)
values. -/
def gateUrls (cmd : Command) : List String :=
  let url := "https://api.gateio.ws/api/v4/spot/candlesticks?currency_pair="
    ++ cmd.symbol ++ "&interval=" ++ cmd.interval.display
  match cmd.from_date, cmd.to_date with
  | some start, some stop =>
    (split_intervals start stop cmd.interval).map fun p =>
      url ++ "&from=" ++ toString (timestampSecs p.1)
        ++ "&to=" ++ toString (timestampSecs p.2)
  | some start, none =>
    [url ++ "&from=" ++ toString (timestampSecs start)]
  | none, some stop =>
    [url ++ "&to=" ++ toString (timestampSecs stop)]
  | none, none => [url ++ "&limit=1000"]

/-- C6: with both dates given, the `n`-th URL of each adapter encodes
the bounds of the `n`-th sub-range in that exchange's own precision:
Binance's `startTime`/`endTime` are the bounds floored to milliseconds
(`fdiv 10^6` of the nanosecond instant), Gate's `from`/`to` are the
bounds floored to seconds (`fdiv 10^9`). -/
theorem urls_encode_exchange_precision (cmd : Command) (s e : Int)
    (hs : cmd.from_date = some s) (he : cmd.to_date = some e)
    (n : Nat) (p : Int × Int)
    (hp : (split_intervals s e cmd.interval)[n]? = some p) :
    (binanceUrls cmd)[n]? =
      some ("https://api.binance.com/api/v3/klines?symbol=" ++ cmd.symbol
        ++ "&interval=" ++ cmd.interval.display ++ "&limit=1000"
        ++ "&startTime=" ++ toString (p.1.fdiv 1000000)
        ++ "&endTime=" ++ toString (p.2.fdiv 1000000)) ∧
    (gateUrls cmd)[n]? =
      some ("https://api.gateio.ws/api/v4/spot/candlesticks?currency_pair="
        ++ cmd.symbol ++ "&interval=" ++ cmd.interval.display
        ++ "&from=" ++ toString (p.1.fdiv 1000000000)
        ++ "&to=" ++ toString (p.2.fdiv 1000000000)) := by
  unfold binanceUrls gateUrls
  rw [hs, he]
  simp only [List.getElem?_map, hp, Option.map_some]
  exact ⟨rfl, rfl⟩

/-- The concrete command used as witness input for the adapters. -/
def sampleCommand : Command :=
  { market := Market.Binance
    symbol := "BTCUSDT"
    interval := Interval.M1
    from_date := some 0
    to_date := some 90000000000000
    output_file := none }

/-- Witness for `urls_encode_exchange_precision`: on the two-piece split
of `[0, 1500 min]` at `M1`, the second URL of each adapter carries the
second sub-range's bounds in that adapter's precision. -/
theorem urls_encode_exchange_precision_witness :
    (binanceUrls sampleCommand)[1]? =
      some ("https://api.binance.com/api/v3/klines?symbol="
        ++ sampleCommand.symbol
        ++ "&interval=" ++ sampleCommand.interval.display ++ "&limit=1000"
        ++ "&startTime=" ++ toString ((60060000000000 : Int).fdiv 1000000)
        ++ "&endTime=" ++ toString ((90000000000000 : Int).fdiv 1000000)) ∧
    (gateUrls sampleCommand)[1]? =
      some ("https://api.gateio.ws/api/v4/spot/candlesticks?currency_pair="
        ++ sampleCommand.symbol
        ++ "&interval=" ++ sampleCommand.interval.display
        ++ "&from=" ++ toString ((60060000000000 : Int).fdiv 1000000000)
        ++ "&to=" ++ toString ((90000000000000 : Int).fdiv 1000000000)) :=
  urls_encode_exchange_precision sampleCommand 0 90000000000000 rfl rfl 1
    (60060000000000, 90000000000000)
    (by rw [show sampleCommand.interval = Interval.M1 from rfl,
          split_intervals_eval_1500]; rfl)

/-- The `GateKline` struct of `src/market/gate.rs`: a single `time`
field (the candle's opening second on the wire) plus the price/volume
scalars. -/
structure GateKline where
  time : Int
  quote_volume : Float
  close_price : Float
  high_price : Float
  low_price : Float
  open_price : Float
  base_volume : Float
  window : Bool

/-- `GateKline`'s `Kline::open_time` accessor returns the `time`
field. -/
def GateKline.open_time (k : GateKline) : Int := k.time

/-- `GateKline`'s `Kline::close_time` accessor returns the same `time`
field. -/
def GateKline.close_time (k : GateKline) : Int := k.time

/-- C9: both time accessors of a Gate candle return the same instant, so
resume logic driven by `close_time` reads a Gate candle's opening time
as its closing time. -/
theorem gate_open_time_eq_close_time (k : GateKline) :
    k.open_time = k.close_time := rfl

/-! ## `fetch_url` (`src/utils.rs`)

The network is modelled by an oracle `attempts : Nat → Except ε ρ`
giving the result of `reqwest::get` on each attempt number; the
`eprintln` log line and the inter-attempt sleep have no effect on the
returned value and are dropped.  The final `last_error.unwrap()` is
modelled by `Option`: `none` is the panic of `unwrap` on `None`. -/

/-- The `for attempt in 1..=retry` loop of `fetch_url`, carrying the
`last_error` accumulator. -/
def fetchUrlGo {ε ρ : Type} (attempts : Nat → Except ε ρ) (retry : Nat)
    (attempt : Nat) (lastError : Option ε) : Option (Except ε ρ) :=
  if attempt ≤ retry then
    match attempts attempt with
    | Except.ok r => some (Except.ok r)
    | Except.error e => fetchUrlGo attempts retry (attempt + 1) (some e)
  else lastError.map Except.error
termination_by retry + 1 - attempt

/-- `fetch_url` from `src/utils.rs`: attempts start at 1 with no error
recorded. -/
def fetch_url {ε ρ : Type} (attempts : Nat → Except ε ρ) (retry : Nat) :
    Option (Except ε ρ) :=
  fetchUrlGo attempts retry 1 none

theorem fetchUrlGo_stop {ε ρ : Type} (attempts : Nat → Except ε ρ)
    (retry attempt : Nat) (lastError : Option ε) (h : ¬ attempt ≤ retry) :
    fetchUrlGo attempts retry attempt lastError =
      lastError.map Except.error := by
  rw [fetchUrlGo]
  simp [h]

theorem fetchUrlGo_step {ε ρ : Type} (attempts : Nat → Except ε ρ)
    (retry attempt : Nat) (lastError : Option ε) (h : attempt ≤ retry) :
    fetchUrlGo attempts retry attempt lastError =
      match attempts attempt with
      | Except.ok r => some (Except.ok r)
      | Except.error e => fetchUrlGo attempts retry (attempt + 1) (some e) := by
  rw [fetchUrlGo]
  simp [h]

theorem fetchUrlGo_step_ok {ε ρ : Type} (attempts : Nat → Except ε ρ)
    (retry attempt : Nat) (lastError : Option ε) (r : ρ)
    (h : attempt ≤ retry) (hok : attempts attempt = Except.ok r) :
    fetchUrlGo attempts retry attempt lastError = some (Except.ok r) := by
  rw [fetchUrlGo_step attempts retry attempt lastError h, hok]

theorem fetchUrlGo_step_error {ε ρ : Type} (attempts : Nat → Except ε ρ)
    (retry attempt : Nat) (lastError : Option ε) (e : ε)
    (h : attempt ≤ retry) (herr : attempts attempt = Except.error e) :
    fetchUrlGo attempts retry attempt lastError =
      fetchUrlGo attempts retry (attempt + 1) (some e) := by
  rw [fetchUrlGo_step attempts retry attempt lastError h, herr]

/-- If every attempt from `attempt` through `retry` fails, the loop
returns the error of attempt `retry` — the last one. -/
theorem fetchUrlGo_all_fail {ε ρ : Type} (attempts : Nat → Except ε ρ)
    (retry : Nat) (attempt : Nat) (lastError : Option ε)
    (hle : attempt ≤ retry)
    (hfail : ∀ i, attempt ≤ i → i ≤ retry → (attempts i).isOk = false) :
    ∃ e, attempts retry = Except.error e ∧
      fetchUrlGo attempts retry attempt lastError =
        some (Except.error e) := by
  induction attempt, lastError using fetchUrlGo.induct attempts retry with
  | case1 attempt lastError h r hok =>
    have hcur := hfail attempt (le_refl _) h
    rw [hok] at hcur
    simp [Except.isOk, Except.toBool] at hcur
  | case2 attempt lastError h e herr ih =>
    rw [fetchUrlGo_step_error attempts retry attempt lastError e h herr]
    by_cases hlast : attempt = retry
    · subst hlast
      refine ⟨e, herr, ?_⟩
      rw [fetchUrlGo_stop attempts attempt (attempt + 1) (some e)
        (by omega)]
      rfl
    · have hle2 : attempt + 1 ≤ retry := by omega
      obtain ⟨e2, h1, h2⟩ := ih hle2
        (fun i hi1 hi2 => hfail i (by omega) hi2)
      exact ⟨e2, h1, h2⟩
  | case3 attempt lastError h => exact absurd hle h

/-- If the attempts before `j` fail and attempt `j ≤ retry` succeeds,
the loop returns the response of attempt `j`. -/
theorem fetchUrlGo_first_ok {ε ρ : Type} (attempts : Nat → Except ε ρ)
    (retry : Nat) (attempt : Nat) (lastError : Option ε) (j : Nat) (r : ρ)
    (hj1 : attempt ≤ j) (hj2 : j ≤ retry)
    (hfail : ∀ i, attempt ≤ i → i < j → (attempts i).isOk = false)
    (hok : attempts j = Except.ok r) :
    fetchUrlGo attempts retry attempt lastError = some (Except.ok r) := by
  induction attempt, lastError using fetchUrlGo.induct attempts retry with
  | case1 attempt lastError h r0 hok0 =>
    by_cases hj : attempt = j
    · subst hj
      exact fetchUrlGo_step_ok attempts retry attempt lastError r h hok
    · have hne : attempt < j := by omega
      have hcur := hfail attempt (le_refl _) hne
      rw [hok0] at hcur
      simp [Except.isOk, Except.toBool] at hcur
  | case2 attempt lastError h e herr ih =>
    by_cases hj : attempt = j
    · subst hj
      rw [hok] at herr
      cases herr
    · rw [fetchUrlGo_step_error attempts retry attempt lastError e h herr]
      exact ih (by omega) (fun i hi1 hi2 => hfail i (by omega) hi2)
  | case3 attempt lastError h => omega


/-- As long as the loop still has attempts to run or an error has been
recorded, it returns a value (never the `unwrap` panic). -/
theorem fetchUrlGo_isSome {ε ρ : Type} (attempts : Nat → Except ε ρ)
    (retry attempt : Nat) (lastError : Option ε)
    (h : attempt ≤ retry ∨ lastError.isSome = true) :
    (fetchUrlGo attempts retry attempt lastError).isSome = true := by
  induction attempt, lastError using fetchUrlGo.induct attempts retry with
  | case1 attempt lastError hle r hok =>
    rw [fetchUrlGo_step_ok attempts retry attempt lastError r hle hok]
    rfl
  | case2 attempt lastError hle e herr ih =>
    rw [fetchUrlGo_step_error attempts retry attempt lastError e hle herr]
    exact ih (Or.inr rfl)
  | case3 attempt lastError hle =>
    rw [fetchUrlGo_stop attempts retry attempt lastError hle]
    rcases h with h | h
    · exact absurd h hle
    · cases lastError with
      | none => simp at h
      | some e => rfl

/-- C7: for every retry limit `n ≥ 1`: if all `n` attempts fail,
`fetch_url` returns the error of the last (`n`-th) attempt; if the
attempts before some attempt `j ≤ n` all fail and attempt `j` succeeds,
it returns that first successful response. -/
theorem fetch_url_retry_semantics {ε ρ : Type}
    (attempts : Nat → Except ε ρ) (n : Nat) (hn : 1 ≤ n) :
    ((∀ i, 1 ≤ i → i ≤ n → (attempts i).isOk = false) →
      ∃ e, attempts n = Except.error e ∧
        fetch_url attempts n = some (Except.error e)) ∧
    (∀ j r, 1 ≤ j → j ≤ n →
      (∀ i, 1 ≤ i → i < j → (attempts i).isOk = false) →
      attempts j = Except.ok r →
      fetch_url attempts n = some (Except.ok r)) := by
  constructor
  · intro hfail
    exact fetchUrlGo_all_fail attempts n 1 none hn hfail
  · intro j r hj1 hj2 hfail hok
    exact fetchUrlGo_first_ok attempts n 1 none j r hj1 hj2 hfail hok

/-- An attempt oracle that fails on every attempt (witness input). -/
def alwaysFail : Nat → Except String Nat :=
  fun _ => Except.error "connection refused"

/-- An attempt oracle whose first attempt fails and whose later attempts
succeed (witness input). -/
def failThenOk : Nat → Except String Nat :=
  fun i => if i = 1 then Except.error "connection refused" else Except.ok 7

/-- Witness for `fetch_url_retry_semantics`: with two attempts that both
fail the result is the last error; with a failure followed by a success
the result is the first successful response. -/
theorem fetch_url_retry_semantics_witness :
    (∃ e, alwaysFail 2 = Except.error e ∧
      fetch_url alwaysFail 2 = some (Except.error e)) ∧
    fetch_url failThenOk 3 = some (Except.ok 7) :=
  ⟨(fetch_url_retry_semantics alwaysFail 2 (by norm_num)).1
      (fun i h1 h2 => rfl),
    (fetch_url_retry_semantics failThenOk 3 (by norm_num)).2 2 7
      (by norm_num) (by norm_num)
      (fun i h1 h2 => by
        have hi : i = 1 := by omega
        subst hi
        rfl)
      rfl⟩

/-- C8: with `retry = 0` the `1..=retry` loop body never runs,
`last_error` stays `None` and the final `unwrap` panics (the `none` of
the model); for every `retry ≥ 1` the function is total and returns a
value. -/
theorem fetch_url_zero_retry_panics {ε ρ : Type}
    (attempts : Nat → Except ε ρ) :
    fetch_url attempts 0 = none ∧
      ∀ n, 1 ≤ n → (fetch_url attempts n).isSome = true := by
  constructor
  · unfold fetch_url
    rw [fetchUrlGo_stop attempts 0 1 none (by omega)]
    rfl
  · intro n hn
    exact fetchUrlGo_isSome attempts n 1 none (Or.inl hn)

/-- Witness for `fetch_url_zero_retry_panics` at the concrete oracle
`alwaysFail`, checking the `retry = 1` case of the totality half. -/
theorem fetch_url_zero_retry_panics_witness :
    fetch_url alwaysFail 0 = none ∧
      (fetch_url alwaysFail 1).isSome = true :=
  ⟨(fetch_url_zero_retry_panics alwaysFail).1,
    (fetch_url_zero_retry_panics alwaysFail).2 1 (by norm_num)⟩

/-! ## The fetch loop of `main` (`src/main.rs`)

With both dates given, `main` iterates over the sub-ranges of
`split_intervals` in order; for each it builds the URL and runs
`reqwest::get(url).await?` followed by `response.json::<Vec<Kline>>()
.await?`.  Both `?` operators propagate the error out of `main`,
aborting the whole run.  The network and decoder are modelled by an
oracle mapping each sub-range to either its decoded kline list or the
transport/decode error of that request.  The per-iteration
`write_data_to_file` call (whose result `main` discards) and the
progress printing are external side effects with no influence on
control flow. -/

/-- A per-request failure of the loop body: the transport error of
`reqwest::get` or the decode error of `response.json()`. -/
inductive FetchError
  | transport
  | decode
deriving DecidableEq

/-- The `for (start, end) in intervals` loop of `main`, accumulating
`klines`; the first failing sub-range makes the whole loop — and with it
`main` — return that error. -/
def mainFetchLoop (fetch : Int × Int → Except FetchError (List Kline)) :
    List (Int × Int) → List Kline → Except FetchError (List Kline)
  | [], klines => Except.ok klines
  | r :: rs, klines =>
    match fetch r with
    | Except.error e => Except.error e
    | Except.ok data => mainFetchLoop fetch rs (klines ++ data)

/-- The sub-ranges whose request the loop actually issues: every
sub-range up to and including the first failing one. -/
def attemptedRanges (fetch : Int × Int → Except FetchError (List Kline)) :
    List (Int × Int) → List (Int × Int)
  | [] => []
  | r :: rs =>
    match fetch r with
    | Except.error _ => [r]
    | Except.ok _ => r :: attemptedRanges fetch rs

/-- The oracle used as counterexample and witness input: the sub-range
starting at 0 fails with a transport error, every other request returns
an empty kline list. -/
def failAtZero : Int × Int → Except FetchError (List Kline) :=
  fun r => if r.1 = 0 then Except.error FetchError.transport
    else Except.ok []

/-- C4 (counterexample): a single sub-range's request failure **does**
terminate the run.  On the two sub-ranges of the `[0, 1500 min]` split,
with the first request failing, `main`'s loop returns the transport
error — no outcome for the second sub-range exists and its request is
never issued. -/
theorem main_loop_failure_counterexample :
    mainFetchLoop failAtZero
        [(0, 60000000000000), (60060000000000, 90000000000000)] [] =
      Except.error FetchError.transport ∧
    attemptedRanges failAtZero
        [(0, 60000000000000), (60060000000000, 90000000000000)] =
      [(0, 60000000000000)] := by
  exact ⟨rfl, rfl⟩

/-- C4 (amended): the failure of a sub-range's request terminates the
run.  If the sub-ranges before `r` all succeed and `r`'s request fails
with `e`, the loop returns `Except.error e` — which `main` propagates —
and the requests after `r` are never issued. -/
theorem main_loop_aborts_on_first_failure
    (fetch : Int × Int → Except FetchError (List Kline))
    (pre post : List (Int × Int)) (r : Int × Int) (e : FetchError)
    (acc : List Kline)
    (hpre : ∀ x ∈ pre, ∃ d, fetch x = Except.ok d)
    (hr : fetch r = Except.error e) :
    mainFetchLoop fetch (pre ++ r :: post) acc = Except.error e ∧
      attemptedRanges fetch (pre ++ r :: post) = pre ++ [r] := by
  induction pre generalizing acc with
  | nil =>
    simp only [List.nil_append]
    constructor
    · show (match fetch r with
        | Except.error e => Except.error e
        | Except.ok data => mainFetchLoop fetch post (acc ++ data)) =
          Except.error e
      rw [hr]
    · show (match fetch r with
        | Except.error _ => [r]
        | Except.ok _ => r :: attemptedRanges fetch post) = [r]
      rw [hr]
  | cons x xs ih =>
    obtain ⟨d, hd⟩ := hpre x (List.mem_cons_self x xs)
    have hxs : ∀ y ∈ xs, ∃ d, fetch y = Except.ok d :=
      fun y hy => hpre y (List.mem_cons_of_mem x hy)
    have ihx := ih (acc ++ d) hxs
    constructor
    · show (match fetch x with
        | Except.error e => Except.error e
        | Except.ok data =>
            mainFetchLoop fetch (xs ++ r :: post) (acc ++ data)) =
          Except.error e
      rw [hd]
      exact ihx.1
    · show (match fetch x with
        | Except.error _ => [x]
        | Except.ok _ => x :: attemptedRanges fetch (xs ++ r :: post)) =
          x :: (xs ++ [r])
      rw [hd]
      rw [ihx.2]

/-- Witness for `main_loop_aborts_on_first_failure`: one successful
sub-range followed by the failing one and one more that is never
attempted. -/
theorem main_loop_aborts_on_first_failure_witness :
    mainFetchLoop failAtZero [(1, 2), (0, 5), (7, 8)] [] =
      Except.error FetchError.transport ∧
    attemptedRanges failAtZero [(1, 2), (0, 5), (7, 8)] =
      [(1, 2), (0, 5)] :=
  main_loop_aborts_on_first_failure failAtZero [(1, 2)] [(7, 8)] (0, 5)
    FetchError.transport []
    (by
      intro x hx
      simp at hx
      subst hx
      exact ⟨[], rfl⟩)
    rfl

end DownloadTicks
